import Mathlib

/-
  Verification of the search/replace diff engine of the VeraLevel-Code
  repository.

  The repository ships the test-suites of the engine (the
  `searchAndReplaceTool` unit tests and the `MultiSearchReplaceDiffStrategy`
  performance tests) together with a natural-language specification, while
  the engine implementation itself is not among the shipped sources.  The
  definitions below therefore embed the engine as described by the
  specification (sections 3 to 4.7), with the observable message formats
  pinned to the exact strings the shipped tests assert.

  Text is modelled as `List Char` (byte-for-byte), similarity scores as
  rationals in [0,1].
-/

namespace VeraLevel

/-- Modelled from the spec: one outcome per applied block, the sum type
`Applied | NoMatch | Ambiguous | MalformedBlock` of section 3. -/
inductive ApplyOutcome where
  | applied (content : List Char)
  | noMatch (reason : String)
  | ambiguous (count : Nat) (sampleLocations : List Nat)
  | malformedBlock (reason : String)
deriving DecidableEq, Repr

/-- Modelled from the spec: `S` occurs in `C` as an exact substring at
position `i` (0-based character index). -/
def occursAt (c s : List Char) (i : Nat) : Bool :=
  decide (List.take s.length (List.drop i c) = s)

/-- Modelled from the spec: the exact pass of the MatchLocator — every
byte-exact occurrence position of `s` in `c`, in increasing order. -/
def findOccurrences (c s : List Char) : List Nat :=
  (List.range (c.length - s.length + 1)).filter (fun i => occursAt c s i)

/-- Modelled from the spec: 1-based line number holding character
position `p` of content `c`. -/
def lineOfPos (c : List Char) (p : Nat) : Nat :=
  1 + (List.take p c).count '\n'

/-- Modelled from the spec: a scored candidate location (section 3).
`startPos`/`len` record the exact character span the candidate covers so
that the ReplaceApplier can substitute verbatim. -/
structure MatchCandidate where
  startPos : Nat
  len : Nat
  startLine : Nat
  endLine : Nat
  score : ℚ
deriving DecidableEq, Repr

/-- Modelled from the spec: the candidate built for an exact occurrence at
position `p`; exact matches score 1.0. -/
def mkExactCand (c s : List Char) (p : Nat) : MatchCandidate :=
  ⟨p, s.length, lineOfPos c p, lineOfPos c (p + s.length - 1), 1⟩

/-- Modelled from the spec: the caller-supplied hard scope of section 4.2 —
a candidate outside the inclusive line range is not a candidate at all. -/
def candInScope (scope : Option (Nat × Nat)) (cd : MatchCandidate) : Bool :=
  match scope with
  | none => true
  | some q => decide (q.1 ≤ cd.startLine) && decide (cd.endLine ≤ q.2)

/-- Modelled from the spec: the exact pass restricted to the hard scope. -/
def exactCandidates (c s : List Char) (scope : Option (Nat × Nat)) :
    List MatchCandidate :=
  ((findOccurrences c s).map (mkExactCand c s)).filter (candInScope scope)

/-- Modelled from the spec: one inner step of the banded row computation of
the edit distance (SimilarityScorer, section 4.3). -/
def levRowAux (ch : Char) : List Char → List Nat → Nat → Nat → List Nat
  | [], _, _, _ => []
  | _ :: _, [], _, _ => []
  | bj :: brest, pj :: prest, diag, left =>
      let cost : Nat := if bj = ch then 0 else 1
      let nj := min (left + 1) (min (pj + 1) (diag + cost))
      nj :: levRowAux ch brest prest pj nj

/-- Modelled from the spec: advance the edit-distance row by one character
of the first operand. -/
def levRow (ch : Char) (b : List Char) (prev : List Nat) : List Nat :=
  let h := prev.headD 0
  (h + 1) :: levRowAux ch b (prev.drop 1) h (h + 1)

/-- Modelled from the spec: edit distance of the SimilarityScorer, computed
row by row (linear space, each window evaluated once). -/
def lev (a b : List Char) : Nat :=
  (a.foldl (fun row ch => levRow ch b row) (List.range (b.length + 1))).getLastD 0

/-- Modelled from the spec: split content into its lines (the final line
carries no terminating newline). -/
def splitLines : List Char → List (List Char)
  | [] => [[]]
  | ch :: rest =>
      if ch = '\n' then [] :: splitLines rest
      else match splitLines rest with
        | [] => [[ch]]
        | l :: ls => (ch :: l) :: ls

/-- Modelled from the spec: the number of lines of a content. -/
def numLines (c : List Char) : Nat :=
  (splitLines c).length

/-- Modelled from the spec: whitespace normalisation before fuzzy scoring —
drop trailing spaces of a line. -/
def stripTrail (l : List Char) : List Char :=
  ((l.reverse).dropWhile (fun ch => ch = ' ')).reverse

/-- Modelled from the spec: whitespace normalisation of one line (tabs
become spaces, trailing spaces dropped). -/
def normLine (l : List Char) : List Char :=
  stripTrail (l.map (fun ch => if ch = '\t' then ' ' else ch))

/-- Modelled from the spec: whitespace normalisation of a whole span,
applied line by line; used for fuzzy scoring only, never for replacement. -/
def normText (c : List Char) : List Char :=
  List.intercalate ['\n'] ((splitLines c).map normLine)

/-- Modelled from the spec: normalised similarity
`1 - distance / max(len a, len b)` of section 4.3, in [0,1]. -/
def simScore (a b : List Char) : ℚ :=
  let m := max a.length b.length
  if m = 0 then 1 else mkRat (Int.ofNat m - Int.ofNat (lev a b)) m

/-- Modelled from the spec: acceptance threshold of the fuzzy pass
(similarity at least 0.8). -/
def fuzzyThreshold : ℚ := mkRat 4 5

/-- Modelled from the spec: bounded margin of the advisory line-hint
neighbourhood of the fuzzy pass. -/
def fuzzyMargin : Nat := 40

/-- Modelled from the spec: character position at which line `i`
(0-based) of content `c` starts. -/
def charPosOfLine (c : List Char) (i : Nat) : Nat :=
  ((splitLines c).take i).foldl (fun a l => a + l.length + 1) 0

/-- Modelled from the spec: the fuzzy-pass window starting at line `i`
(0-based), sized to the search's line count, scored against the search. -/
def windowCand (c s : List Char) (w i : Nat) : MatchCandidate :=
  let seg := ((splitLines c).drop i).take w
  let text := List.intercalate ['\n'] seg
  ⟨charPosOfLine c i, text.length, i + 1, i + w, simScore (normText text) (normText s)⟩

/-- Modelled from the spec: does window start `i` lie in the advisory
neighbourhood of the line hint (section 4.2, step 3). -/
def hintOk (hint : Option Nat) (i : Nat) : Bool :=
  match hint with
  | none => true
  | some h => decide (h ≤ i + 1 + fuzzyMargin) && decide (i + 1 ≤ h + fuzzyMargin)

/-- Modelled from the spec: the fuzzy pass of the MatchLocator under the
PerformanceGuard.  Returns the surviving candidates together with the
number of windows evaluated (the guarded operation count). -/
def fuzzyPass (c s : List Char) (hint : Option Nat) (scope : Option (Nat × Nat)) :
    List MatchCandidate × Nat :=
  let w := (splitLines s).length
  let starts := (List.range ((splitLines c).length + 1 - w)).filter (hintOk hint)
  let cands := (starts.map (windowCand c s w)).filter
      (fun cd => decide (fuzzyThreshold ≤ cd.score) && candInScope scope cd)
  (cands, starts.length)

/-- Modelled from the spec: `locate` of section 4.2 — the exact pass, the
fuzzy pass entered only when the exact pass yields zero candidates, both
restricted to the hard scope; paired with the fuzzy operation count. -/
def locateCounted (c s : List Char) (hint : Option Nat) (scope : Option (Nat × Nat)) :
    List MatchCandidate × Nat :=
  let exact := exactCandidates c s scope
  if exact.isEmpty then fuzzyPass c s hint scope else (exact, 0)

/-- Modelled from the spec: the best score among the candidates. -/
def maxScore (l : List MatchCandidate) : ℚ :=
  l.foldr (fun cd m => max cd.score m) 0

/-- Modelled from the spec: the ReplaceApplier of section 4.5 — substitute
the candidate's exact span with the replacement verbatim, preserving the
content before and after the span byte-for-byte. -/
def applyCand (c r : List Char) (t : MatchCandidate) : List Char :=
  c.take t.startPos ++ r ++ c.drop (t.startPos + t.len)

/-- Modelled from the spec: the AmbiguityPolicy of section 4.4 — zero
candidates give `NoMatch`, a single top-scoring candidate is applied, two
or more tied top candidates give `Ambiguous` with the total count and at
most 10 sample line numbers. -/
def resolve (c r : List Char) (l : List MatchCandidate) : ApplyOutcome :=
  match l.filter (fun cd => decide (cd.score = maxScore l)) with
  | [] => ApplyOutcome.noMatch "No sufficiently similar match found"
  | [t] => ApplyOutcome.applied (applyCand c r t)
  | t :: u :: rest =>
      ApplyOutcome.ambiguous (t :: u :: rest).length
        (((t :: u :: rest).take 10).map (fun cd => cd.startLine))

/-- Modelled from the spec: one whole search/replace attempt — the
MatchLocator followed by the AmbiguityPolicy and the ReplaceApplier; an
empty search is rejected as malformed (section 4.2, edge-case policy). -/
def searchReplace (c s r : List Char) (hint : Option Nat) (scope : Option (Nat × Nat)) :
    ApplyOutcome :=
  if s.isEmpty then ApplyOutcome.malformedBlock "Empty search block"
  else resolve c r (locateCounted c s hint scope).1

/-! ### Occurrence lemmas -/

theorem occursAt_iff (c s : List Char) (i : Nat) :
    occursAt c s i = true ↔ List.take s.length (List.drop i c) = s := by
  simp [occursAt]

theorem occursAt_bounds (c s : List Char) (i : Nat) (hs : s ≠ [])
    (h : occursAt c s i = true) : i + s.length ≤ c.length := by
  rw [occursAt_iff] at h
  have hlen : (List.take s.length (List.drop i c)).length = s.length := by rw [h]
  rw [List.length_take, List.length_drop] at hlen
  have hs1 : 1 ≤ s.length := List.length_pos.mpr hs
  omega

theorem occursAt_lt_length (c s : List Char) (i : Nat) (hs : s ≠ [])
    (h : occursAt c s i = true) : i < c.length := by
  have := occursAt_bounds c s i hs h
  have hs1 : 1 ≤ s.length := List.length_pos.mpr hs
  omega

theorem mem_findOccurrences (c s : List Char) (i : Nat) (hs : s ≠ []) :
    i ∈ findOccurrences c s ↔ occursAt c s i = true := by
  unfold findOccurrences
  rw [List.mem_filter, List.mem_range]
  constructor
  · rintro ⟨-, h⟩
    exact h
  · intro h
    refine ⟨?_, h⟩
    have := occursAt_bounds c s i hs h
    have hs1 : 1 ≤ s.length := List.length_pos.mpr hs
    omega

theorem findOccurrences_nodup (c s : List Char) : (findOccurrences c s).Nodup :=
  (List.nodup_range _).filter _

theorem findOccurrences_unique (c s : List Char) (p : Nat) (hs : s ≠ [])
    (hp : occursAt c s p = true)
    (hu : ∀ i < c.length, occursAt c s i = true → i = p) :
    findOccurrences c s = [p] := by
  have hmem : p ∈ findOccurrences c s := (mem_findOccurrences c s p hs).mpr hp
  have hall : ∀ x ∈ findOccurrences c s, x = p := by
    intro x hx
    have hocc := (mem_findOccurrences c s x hs).mp hx
    exact hu x (occursAt_lt_length c s x hs hocc) hocc
  have hnd := findOccurrences_nodup c s
  rcases hfo : findOccurrences c s with _ | ⟨a, rest⟩
  · rw [hfo] at hmem; simp at hmem
  · rw [hfo] at hall hnd hmem
    have ha : a = p := hall a (List.mem_cons_self a rest)
    have hrest : rest = [] := by
      rcases rest with _ | ⟨b, rest2⟩
      · rfl
      · exfalso
        have hb : b = p := hall b (by simp)
        have : a ∉ b :: rest2 := (List.nodup_cons.mp hnd).1
        exact this (by simp [ha, hb])
    rw [ha, hrest]

theorem occursAt_decomp (c s : List Char) (p : Nat)
    (h : occursAt c s p = true) :
    c.take p ++ s ++ c.drop (p + s.length) = c := by
  rw [occursAt_iff] at h
  conv_rhs => rw [← List.take_append_drop p c]
  rw [List.append_assoc]
  congr 1
  conv_rhs => rw [← List.take_append_drop s.length (List.drop p c)]
  rw [h, List.drop_drop, Nat.add_comm]

/-! ### Candidate and resolution lemmas -/

theorem exactCandidates_none (c s : List Char) :
    exactCandidates c s none = (findOccurrences c s).map (mkExactCand c s) := by
  unfold exactCandidates
  exact List.filter_eq_self.mpr (fun a _ => rfl)

theorem mem_exactCandidates_score (c s : List Char) (scope : Option (Nat × Nat))
    (cd : MatchCandidate) (h : cd ∈ exactCandidates c s scope) : cd.score = 1 := by
  unfold exactCandidates at h
  have h2 := List.mem_of_mem_filter h
  rcases List.mem_map.mp h2 with ⟨p, -, rfl⟩
  rfl

theorem maxScore_all_one : ∀ (l : List MatchCandidate), l ≠ [] →
    (∀ cd ∈ l, cd.score = 1) → maxScore l = 1
  | [], h, _ => absurd rfl h
  | [t], _, hall => by
      show max t.score 0 = 1
      rw [hall t (by simp)]
      exact max_eq_left (by norm_num)
  | t :: u :: rest, _, hall => by
      have ih := maxScore_all_one (u :: rest) (by simp)
        (fun cd hcd => hall cd (by simp [List.mem_cons] at hcd ⊢; tauto))
      show max t.score (maxScore (u :: rest)) = 1
      rw [ih, hall t (by simp)]
      exact max_self 1

theorem filter_top_all_one (l : List MatchCandidate) (hne : l ≠ [])
    (hall : ∀ cd ∈ l, cd.score = 1) :
    l.filter (fun cd => decide (cd.score = maxScore l)) = l :=
  List.filter_eq_self.mpr (fun a ha => by
    rw [maxScore_all_one l hne hall, hall a ha]
    simp)

theorem resolve_two (c r : List Char) (l : List MatchCandidate)
    (hall : ∀ cd ∈ l, cd.score = 1) (h2 : 2 ≤ l.length) :
    resolve c r l
      = ApplyOutcome.ambiguous l.length ((l.take 10).map (fun cd => cd.startLine)) := by
  rcases l with _ | ⟨t, _ | ⟨u, rest⟩⟩
  · simp at h2
  · simp at h2
  · have hf := filter_top_all_one (t :: u :: rest) (by simp) hall
    unfold resolve
    rw [hf]

theorem resolve_single (c r : List Char) (t : MatchCandidate) (ht : t.score = 1) :
    resolve c r [t] = ApplyOutcome.applied (applyCand c r t) := by
  have hf := filter_top_all_one [t] (by simp)
    (by intro cd hcd; simp at hcd; rw [hcd, ht])
  unfold resolve
  rw [hf]

theorem resolve_applied_inv (c r : List Char) (l : List MatchCandidate) (nc : List Char)
    (h : resolve c r l = ApplyOutcome.applied nc) :
    ∃ t ∈ l, nc = applyCand c r t := by
  unfold resolve at h
  rcases hf : l.filter (fun cd => decide (cd.score = maxScore l)) with _ | ⟨t, _ | ⟨u, rest⟩⟩ <;>
    rw [hf] at h
  · simp at h
  · refine ⟨t, ?_, ?_⟩
    · exact List.mem_of_mem_filter (by rw [hf]; exact List.mem_cons_self t [])
    · simp only [ApplyOutcome.applied.injEq] at h
      exact h.symm
  · simp at h

theorem searchReplace_exact (c s r : List Char) (hint : Option Nat)
    (scope : Option (Nat × Nat)) (hs : s ≠ []) (hne : exactCandidates c s scope ≠ []) :
    searchReplace c s r hint scope = resolve c r (exactCandidates c s scope) := by
  unfold searchReplace locateCounted
  rw [if_neg (by simpa using hs), if_neg (by simpa using hne)]

theorem searchReplace_noMatch (c s r : List Char) (hint : Option Nat)
    (scope : Option (Nat × Nat)) (hs : s ≠ [])
    (hex : exactCandidates c s scope = []) (hfz : (fuzzyPass c s hint scope).1 = []) :
    searchReplace c s r hint scope
      = ApplyOutcome.noMatch "No sufficiently similar match found" := by
  unfold searchReplace locateCounted
  rw [if_neg (by simpa using hs), if_pos (by simpa using hex), hfz]
  rfl

/-! ### Diagnostic messages and the tool surface -/

/-- Modelled from the spec: the `Ambiguous` diagnostic message, pinned to
the exact wording asserted by the repository's searchAndReplaceTool tests —
it reports the total count, distinguishes whole-file from line-range
ambiguity, lists the sample locations and, past 10 matches, appends the
"... and K more matches" line. -/
def ambiguousMessage (n : Nat) (locs : List Nat) (inRange : Bool) : String :=
  "Search query matches " ++ toString n ++ " locations " ++
  (if inRange then "in the specified line range" else "in the file") ++
  ". This could lead to unintended replacements. Matches found at lines " ++
  String.intercalate ", " (locs.map toString) ++
  (if 10 < n then "\n" ++ ("... and " ++ toString (n - 10) ++ " more matches") else "")

/-- Modelled from the spec: the observable result of one search_and_replace
tool call. -/
inductive ToolOutcome where
  | edited (newContent : List Char)
  | noChanges (message : String)
  | multipleMatches (message : String)
deriving DecidableEq, Repr

/-- Modelled from the spec: the search_and_replace tool surface over the
exact pass, with the outcomes its shipped test-suite asserts — zero
matches are reported as the successful no-op message
"No changes needed for '<path>'", a unique match is applied verbatim, and
multiple matches fail with the capped diagnostic message. -/
def searchAndReplaceToolOutcome (path : String) (c s r : List Char)
    (scope : Option (Nat × Nat)) : ToolOutcome :=
  match exactCandidates c s scope with
  | [] => ToolOutcome.noChanges ("No changes needed for \x27" ++ path ++ "\x27")
  | [t] => ToolOutcome.edited (applyCand c r t)
  | t :: u :: rest =>
      ToolOutcome.multipleMatches
        (ambiguousMessage (t :: u :: rest).length
          (((t :: u :: rest).take 10).map (fun cd => cd.startLine)) scope.isSome)

/-! ### Blocks and the orchestrator -/

/-- Modelled from the spec: one parsed search/replace block (section 3);
the advisory start-line hint biases the fuzzy pass only. -/
structure SearchReplaceBlock where
  search : List Char
  replace : List Char
  startLineHint : Option Nat := none
deriving DecidableEq, Repr

/-- Modelled from the spec: apply one block to the working content. -/
def applyBlock (c : List Char) (b : SearchReplaceBlock) : ApplyOutcome :=
  searchReplace c b.search b.replace b.startLineHint none

/-- Modelled from the spec: the orchestrator's consolidated output for one
patch against one file (section 3). -/
structure BatchResult where
  success : Bool
  content : List Char
  failParts : List (Nat × ApplyOutcome)
deriving DecidableEq, Repr

/-- Modelled from the spec: sequence the blocks in order; a successful
block updates the working content, a failed block is recorded in the fail
parts (with its 0-based index) and the run continues on the content as it
stands. -/
def applyBlocksAux (c : List Char) (idx : Nat) :
    List SearchReplaceBlock → List Char × List (Nat × ApplyOutcome)
  | [] => (c, [])
  | b :: bs =>
      match applyBlock c b with
      | ApplyOutcome.applied c2 => applyBlocksAux c2 (idx + 1) bs
      | out =>
          let rest := applyBlocksAux c (idx + 1) bs
          (rest.1, (idx, out) :: rest.2)

/-- Modelled from the spec: the DiffOrchestrator's single-file mode
(section 4.6); overall success holds exactly when no fail part was
recorded. -/
def applyAll (c : List Char) (bs : List SearchReplaceBlock) : BatchResult :=
  let r := applyBlocksAux c 0 bs
  ⟨r.2.isEmpty, r.1, r.2⟩

/-- Reference predicate following the spec's words: every block of the
patch applies cleanly when run strictly in order, each against the content
produced by the previous successful application. -/
def specCleanRun (c : List Char) : List SearchReplaceBlock → Bool
  | [] => true
  | b :: bs =>
      match applyBlock c b with
      | ApplyOutcome.applied c2 => specCleanRun c2 bs
      | _ => false

/-- Reference function following the spec's words: the content produced by
running the blocks in order, retaining each success and leaving each
failed block's intended edit un-applied. -/
def specEffContent (c : List Char) : List SearchReplaceBlock → List Char
  | [] => c
  | b :: bs =>
      match applyBlock c b with
      | ApplyOutcome.applied c2 => specEffContent c2 bs
      | _ => specEffContent c bs

/-! ### Auxiliary lemmas -/

theorem string_data_append (a b : String) : (a ++ b).data = a.data ++ b.data := by
  cases a
  cases b
  rfl

theorem two_mem_le_length {α : Type} (l : List α) (a b : α) (ha : a ∈ l) (hb : b ∈ l)
    (hne : a ≠ b) : 2 ≤ l.length := by
  rcases l with _ | ⟨x, _ | ⟨y, rest⟩⟩
  · simp at ha
  · simp at ha hb
    rw [ha, hb] at hne
    exact absurd rfl hne
  · show 2 ≤ rest.length + 1 + 1
    omega

theorem splitLines_length_pos (c : List Char) : 1 ≤ (splitLines c).length := by
  induction c with
  | nil => simp [splitLines]
  | cons ch rest ih =>
      unfold splitLines
      by_cases h : ch = '\n'
      · simp [h]
      · rw [if_neg h]
        rcases hq : splitLines rest with _ | ⟨l, ls⟩
        · simp
        · simp

theorem fuzzyPass_count_le (c s : List Char) (hint : Option Nat)
    (scope : Option (Nat × Nat)) : (fuzzyPass c s hint scope).2 ≤ numLines c := by
  unfold fuzzyPass
  dsimp only
  have h1 := List.length_filter_le (hintOk hint)
    (List.range ((splitLines c).length + 1 - (splitLines s).length))
  rw [List.length_range] at h1
  have h2 := splitLines_length_pos s
  unfold numLines
  omega

theorem locateCounted_count_le (c s : List Char) (hint : Option Nat)
    (scope : Option (Nat × Nat)) : (locateCounted c s hint scope).2 ≤ numLines c := by
  unfold locateCounted
  dsimp only
  by_cases h : (exactCandidates c s scope).isEmpty
  · rw [if_pos h]
    exact fuzzyPass_count_le c s hint scope
  · rw [if_neg h]
    exact Nat.zero_le _

theorem locate_scope_sound (c s : List Char) (hint : Option Nat) (lo hi : Nat)
    (cd : MatchCandidate) (h : cd ∈ (locateCounted c s hint (some (lo, hi))).1) :
    lo ≤ cd.startLine ∧ cd.endLine ≤ hi := by
  unfold locateCounted at h
  dsimp only at h
  by_cases hemp : (exactCandidates c s (some (lo, hi))).isEmpty
  · rw [if_pos hemp] at h
    unfold fuzzyPass at h
    dsimp only at h
    have hpred := (List.mem_filter.mp h).2
    rw [Bool.and_eq_true] at hpred
    have hsc := hpred.2
    unfold candInScope at hsc
    rw [Bool.and_eq_true, decide_eq_true_eq, decide_eq_true_eq] at hsc
    exact hsc
  · rw [if_neg hemp] at h
    unfold exactCandidates at h
    have hsc := (List.mem_filter.mp h).2
    unfold candInScope at hsc
    rw [Bool.and_eq_true, decide_eq_true_eq, decide_eq_true_eq] at hsc
    exact hsc

theorem applyBlocksAux_content (bs : List SearchReplaceBlock) :
    ∀ (c : List Char) (idx : Nat), (applyBlocksAux c idx bs).1 = specEffContent c bs := by
  induction bs with
  | nil => intro c idx; rfl
  | cons b bs ih =>
      intro c idx
      unfold applyBlocksAux specEffContent
      rcases h : applyBlock c b with c2 | r | ⟨n, locs⟩ | r <;> simp [h, ih]

theorem applyBlocksAux_failParts_nil (bs : List SearchReplaceBlock) :
    ∀ (c : List Char) (idx : Nat),
      ((applyBlocksAux c idx bs).2 = [] ↔ specCleanRun c bs = true) := by
  induction bs with
  | nil => intro c idx; simp [applyBlocksAux, specCleanRun]
  | cons b bs ih =>
      intro c idx
      unfold applyBlocksAux specCleanRun
      rcases h : applyBlock c b with c2 | r | ⟨n, locs⟩ | r <;> simp [h, ih]

theorem locateCounted_exact (c s : List Char) (hint : Option Nat)
    (scope : Option (Nat × Nat)) (hne : exactCandidates c s scope ≠ []) :
    locateCounted c s hint scope = (exactCandidates c s scope, 0) := by
  unfold locateCounted
  dsimp only
  rw [if_neg (by simpa using hne)]

theorem searchReplace_unique_applied (C S R : List Char) (p : Nat) (hS : S ≠ [])
    (hp : occursAt C S p = true)
    (hu : ∀ i < C.length, occursAt C S i = true → i = p) :
    searchReplace C S R none none
      = ApplyOutcome.applied (C.take p ++ R ++ C.drop (p + S.length)) := by
  have hfo := findOccurrences_unique C S p hS hp hu
  have hexact : exactCandidates C S none = [mkExactCand C S p] := by
    rw [exactCandidates_none, hfo]
    rfl
  rw [searchReplace_exact C S R none none hS (by rw [hexact]; simp), hexact,
      resolve_single C R (mkExactCand C S p) rfl]
  rfl

theorem exactCandidates_none_stats (C S : List Char) :
    (exactCandidates C S none).length = (findOccurrences C S).length
    ∧ ((exactCandidates C S none).take 10).map (fun cd => cd.startLine)
        = ((findOccurrences C S).take 10).map (lineOfPos C) := by
  rw [exactCandidates_none]
  constructor
  · exact List.length_map _ _
  · rw [← List.map_take, List.map_map]
    rfl

theorem searchReplace_ambiguous_none (C S R : List Char) (hS : S ≠ [])
    (h2 : 2 ≤ (findOccurrences C S).length) :
    searchReplace C S R none none
      = ApplyOutcome.ambiguous (findOccurrences C S).length
          (((findOccurrences C S).take 10).map (lineOfPos C)) := by
  obtain ⟨hlen, hsamp⟩ := exactCandidates_none_stats C S
  have hne : exactCandidates C S none ≠ [] := by
    intro h
    rw [h] at hlen
    simp at hlen
    omega
  rw [searchReplace_exact C S R none none hS hne,
      resolve_two C R _ (fun cd hcd => mem_exactCandidates_score C S none cd hcd)
        (by omega),
      hlen, hsamp]

/-! ### Claim C1 — exact unique occurrence applies verbatim -/

/-- C1: for every content `C` and search `S` occurring in `C` as an exact
substring at exactly one location `p`, the single search/replace block
`(S, R)` succeeds: the locator returns exactly one candidate, at the line
span of that occurrence, the outcome is `Applied`, and the result is `C`
with exactly that span replaced by `R` verbatim; the final conjunct shows
`C` decomposes around the span, so everything before and after it is
preserved byte-for-byte. -/
theorem claim1_unique_exact_match_applies (C S R : List Char) (p : Nat) (hS : S ≠ [])
    (hp : occursAt C S p = true)
    (hu : ∀ i < C.length, occursAt C S i = true → i = p) :
    locateCounted C S none none
        = ([⟨p, S.length, lineOfPos C p, lineOfPos C (p + S.length - 1), 1⟩], 0)
    ∧ searchReplace C S R none none
        = ApplyOutcome.applied (C.take p ++ R ++ C.drop (p + S.length))
    ∧ C.take p ++ S ++ C.drop (p + S.length) = C := by
  have hfo := findOccurrences_unique C S p hS hp hu
  have hexact : exactCandidates C S none = [mkExactCand C S p] := by
    rw [exactCandidates_none, hfo]
    rfl
  refine ⟨?_, searchReplace_unique_applied C S R p hS hp hu, occursAt_decomp C S p hp⟩
  rw [locateCounted_exact C S none none (by rw [hexact]; simp), hexact]
  rfl

def c1content : List Char := "function test() \x7b\n    return true;\n\x7d\n".toList

def c1search : List Char := "return true;".toList

def c1replace : List Char := "return false;".toList

theorem claim1_witness :
    (occursAt c1content c1search 22 = true
      ∧ ∀ i < c1content.length, occursAt c1content c1search i = true → i = 22)
    ∧ searchReplace c1content c1search c1replace none none
        = ApplyOutcome.applied
            (c1content.take 22 ++ c1replace ++ c1content.drop (22 + c1search.length)) :=
  ⟨⟨by decide, by decide⟩,
   (claim1_unique_exact_match_applies c1content c1search c1replace 22 (by decide)
      (by decide) (by decide)).2.1⟩

/-! ### Claim C9 — replacing a unique occurrence by itself is the identity -/

/-- C9: for every content `C` and search `S` occurring exactly once in `C`,
applying a block whose replace text equals its search text yields content
byte-identical to the original `C`. -/
theorem claim9_noop_replace_is_identity (C S : List Char) (p : Nat) (hS : S ≠ [])
    (hp : occursAt C S p = true)
    (hu : ∀ i < C.length, occursAt C S i = true → i = p) :
    searchReplace C S S none none = ApplyOutcome.applied C := by
  rw [searchReplace_unique_applied C S S p hS hp hu, occursAt_decomp C S p hp]

theorem claim9_witness :
    (occursAt "ab".toList "a".toList 0 = true
      ∧ ∀ i < "ab".toList.length, occursAt "ab".toList "a".toList i = true → i = 0)
    ∧ searchReplace "ab".toList "a".toList "a".toList none none
        = ApplyOutcome.applied "ab".toList :=
  ⟨⟨by decide, by decide⟩,
   claim9_noop_replace_is_identity "ab".toList "a".toList 0 (by decide) (by decide)
     (by decide)⟩

/-! ### Claim C3 — multiple exact matches fail as Ambiguous with the true count -/

/-- C3: if `S` occurs at two or more disjoint exact locations of `C` and no
line hint is supplied, the outcome is `Ambiguous` (no location is edited),
the reported count is the true number of occurrence positions (the
occurrence list contains every position at which `S` occurs, without
duplicates), and the sample-location list carries at most 10 entries. -/
theorem claim3_multiple_matches_ambiguous (C S R : List Char) (p q : Nat) (hS : S ≠ [])
    (hp : occursAt C S p = true) (hq : occursAt C S q = true)
    (hdisj : p + S.length ≤ q) :
    searchReplace C S R none none
      = ApplyOutcome.ambiguous (findOccurrences C S).length
          (((findOccurrences C S).take 10).map (lineOfPos C))
    ∧ (∀ i, occursAt C S i = true ↔ i ∈ findOccurrences C S)
    ∧ (findOccurrences C S).Nodup
    ∧ 2 ≤ (findOccurrences C S).length
    ∧ (((findOccurrences C S).take 10).map (lineOfPos C)).length ≤ 10 := by
  have hS1 : 1 ≤ S.length := List.length_pos.mpr hS
  have hpq : p ≠ q := by omega
  have hpm := (mem_findOccurrences C S p hS).mpr hp
  have hqm := (mem_findOccurrences C S q hS).mpr hq
  have h2 := two_mem_le_length _ p q hpm hqm hpq
  refine ⟨searchReplace_ambiguous_none C S R hS h2,
    fun i => (mem_findOccurrences C S i hS).symm, findOccurrences_nodup C S, h2, ?_⟩
  rw [List.length_map, List.length_take]
  exact Nat.min_le_left _ _

def c3content : List Char := "a\x7d\nb\x7d\nc\x7d".toList

def c3search : List Char := "\x7d".toList

theorem claim3_witness :
    (occursAt c3content c3search 1 = true ∧ occursAt c3content c3search 4 = true
      ∧ 1 + c3search.length ≤ 4 ∧ (findOccurrences c3content c3search).length = 3)
    ∧ searchReplace c3content c3search "X".toList none none
        = ApplyOutcome.ambiguous (findOccurrences c3content c3search).length
            (((findOccurrences c3content c3search).take 10).map (lineOfPos c3content)) :=
  ⟨⟨by decide, by decide, by decide, by decide⟩,
   (claim3_multiple_matches_ambiguous c3content c3search "X".toList 1 4 (by decide)
      (by decide) (by decide) (by decide)).1⟩

/-! ### Claim C2 — blocks are applied strictly in order -/

def c2block1 : SearchReplaceBlock := ⟨"a".toList, "x".toList, none⟩

def c2block2 : SearchReplaceBlock := ⟨"x".toList, "y".toList, none⟩

/-- C2: the orchestrator applies the blocks of a patch strictly in the
given order, each block matching against the content produced by the
previous application: on content `"abc"`, block 1 rewrites `"a"` to `"x"`
and block 2 rewrites `"x"` to `"y"` — a search text that only exists after
block 1 has been applied.  Run in order the patch succeeds with content
`"ybc"` and no fail parts; run in reverse order block 2 (now run first)
fails with `NoMatch` while block 1 still applies, so the batch fails. -/
theorem claim2_sequential_application :
    (applyAll "abc".toList [c2block1, c2block2]).success = true
    ∧ (applyAll "abc".toList [c2block1, c2block2]).content = "ybc".toList
    ∧ (applyAll "abc".toList [c2block1, c2block2]).failParts = []
    ∧ applyBlock "abc".toList c2block2
        = ApplyOutcome.noMatch "No sufficiently similar match found"
    ∧ (applyAll "abc".toList [c2block2, c2block1]).success = false
    ∧ (applyAll "abc".toList [c2block2, c2block1]).failParts
        = [(0, ApplyOutcome.noMatch "No sufficiently similar match found")]
    ∧ (applyAll "abc".toList [c2block2, c2block1]).content = "xbc".toList := by
  decide

/-! ### Claim C7 — per-block failures are independent, successes retained -/

/-- C7: for every batch of blocks applied to one file, a failing block
does not roll back the edits of previously applied blocks — the returned
content is the in-order fold that retains each success and skips each
failure — the fail parts are empty exactly when every block applied
cleanly, and the batch-level success flag equals that conjunction. -/
theorem claim7_failures_do_not_roll_back (C : List Char) (bs : List SearchReplaceBlock) :
    (applyAll C bs).success = specCleanRun C bs
    ∧ (applyAll C bs).content = specEffContent C bs
    ∧ ((applyAll C bs).failParts = [] ↔ specCleanRun C bs = true) := by
  have hfp := applyBlocksAux_failParts_nil bs C 0
  have hc := applyBlocksAux_content bs C 0
  refine ⟨?_, hc, hfp⟩
  show (applyBlocksAux C 0 bs).2.isEmpty = specCleanRun C bs
  rcases hl : (applyBlocksAux C 0 bs).2 with _ | ⟨a, rest⟩
  · exact (hfp.mp hl).symm
  · have hcr : specCleanRun C bs = false := by
      cases hcr2 : specCleanRun C bs
      · rfl
      · exfalso
        have hnil := hfp.mpr hcr2
        rw [hl] at hnil
        exact List.cons_ne_nil a rest hnil
    rw [hcr]
    rfl

/-! ### Claim C5 — zero-match lookups terminate inside a linear window budget -/

/-- C5: for a search with zero matches (no exact occurrence and no fuzzy
window clearing the acceptance threshold) the locate/apply call returns
the `NoMatch` failure, and the number of similarity windows the guarded
fuzzy pass evaluates is at most the number of lines of the file — a linear
(hence sub-quadratic) operation budget, the modelled form of the
PerformanceGuard's wall-clock bound. -/
theorem claim5_zero_match_bounded_budget (C S R : List Char) (hint : Option Nat)
    (hS : S ≠ []) (hex : findOccurrences C S = [])
    (hfz : (fuzzyPass C S hint none).1 = []) :
    searchReplace C S R hint none
      = ApplyOutcome.noMatch "No sufficiently similar match found"
    ∧ (locateCounted C S hint none).2 ≤ numLines C := by
  have hexact : exactCandidates C S none = [] := by
    rw [exactCandidates_none, hex]
    rfl
  exact ⟨searchReplace_noMatch C S R hint none hS hexact hfz,
    locateCounted_count_le C S hint none⟩

theorem claim5_witness :
    (findOccurrences "hello world".toList "zzz".toList = []
      ∧ (fuzzyPass "hello world".toList "zzz".toList none none).1 = [])
    ∧ searchReplace "hello world".toList "zzz".toList "y".toList none none
        = ApplyOutcome.noMatch "No sufficiently similar match found"
    ∧ (locateCounted "hello world".toList "zzz".toList none none).2
        ≤ numLines "hello world".toList :=
  ⟨⟨by decide, by decide⟩,
   claim5_zero_match_bounded_budget "hello world".toList "zzz".toList "y".toList none
     (by decide) (by decide) (by decide)⟩

/-! ### Claim C4 — zero-match outcomes at the two layers -/

def c4content : List Char := "function test() \x7b\n    return true;\n\x7d".toList

def c4search : List Char := "nonexistent_string".toList

/-- C4 counterexample: the repository's searchAndReplaceTool test pins a
zero-match search to the successful no-op result
"No changes needed for 'test.js'" — at the test's own input the tool
outcome is `noChanges`, a success, not the `NoMatch` failure the claim
asserts. -/
theorem claim4_counterexample :
    searchAndReplaceToolOutcome "test.js" c4content c4search "replacement".toList none
      = ToolOutcome.noChanges "No changes needed for \x27test.js\x27" := by
  decide

/-- C4 (amended): at the diff-strategy layer, a search with zero candidates
clearing the threshold yields the `NoMatch` failure; the search_and_replace
tool layer, however, reports a zero-occurrence search as the successful
no-op "No changes needed for '<path>'" rather than as a failure. -/
theorem claim4_amended_zero_match_outcomes (C S R : List Char) (hint : Option Nat)
    (hS : S ≠ []) (hex : findOccurrences C S = [])
    (hfz : (fuzzyPass C S hint none).1 = []) :
    searchReplace C S R hint none
      = ApplyOutcome.noMatch "No sufficiently similar match found"
    ∧ ∀ (path : String) (scope : Option (Nat × Nat)),
        searchAndReplaceToolOutcome path C S R scope
          = ToolOutcome.noChanges ("No changes needed for \x27" ++ path ++ "\x27") := by
  have hexact : exactCandidates C S none = [] := by
    rw [exactCandidates_none, hex]
    rfl
  refine ⟨searchReplace_noMatch C S R hint none hS hexact hfz, fun path scope => ?_⟩
  have hsc : exactCandidates C S scope = [] := by
    unfold exactCandidates
    rw [hex]
    rfl
  unfold searchAndReplaceToolOutcome
  rw [hsc]

set_option maxRecDepth 16384 in
theorem claim4_witness :
    (findOccurrences c4content c4search = []
      ∧ (fuzzyPass c4content c4search none none).1 = [])
    ∧ searchAndReplaceToolOutcome "file.ts" c4content c4search "replacement".toList none
        = ToolOutcome.noChanges ("No changes needed for \x27" ++ "file.ts" ++ "\x27") :=
  ⟨⟨by decide, by decide⟩,
   (claim4_amended_zero_match_outcomes c4content c4search "replacement".toList none
      (by decide) (by decide) (by decide)).2 "file.ts" none⟩

/-! ### Claim C6 — the hard line-range scope excludes outside candidates -/

/-- C6: with a caller-supplied hard scope `[lo, hi]`, every candidate the
locator returns lies inside that line range — no outside location is ever
returned, whatever it would score — and when the outcome is `Applied` the
edited span comes from one of those in-range candidates, so match counting
and ambiguity are determined by in-range occurrences only. -/
theorem claim6_hard_scope_excludes_outside (C S R : List Char) (hint : Option Nat)
    (lo hi : Nat) :
    ((locateCounted C S hint (some (lo, hi))).1.all
        (fun cd => decide (lo ≤ cd.startLine) && decide (cd.endLine ≤ hi)) = true)
    ∧ ∀ nc, searchReplace C S R hint (some (lo, hi)) = ApplyOutcome.applied nc →
        ∃ t ∈ (locateCounted C S hint (some (lo, hi))).1,
          lo ≤ t.startLine ∧ t.endLine ≤ hi ∧ nc = applyCand C R t := by
  constructor
  · rw [List.all_eq_true]
    intro cd hcd
    have hsc := locate_scope_sound C S hint lo hi cd hcd
    rw [Bool.and_eq_true, decide_eq_true_eq, decide_eq_true_eq]
    exact hsc
  · intro nc h
    unfold searchReplace at h
    by_cases hs : S.isEmpty
    · rw [if_pos hs] at h
      simp at h
    · rw [if_neg hs] at h
      obtain ⟨t, ht, hnc⟩ := resolve_applied_inv C R _ nc h
      have hsc := locate_scope_sound C S hint lo hi t ht
      exact ⟨t, ht, hsc.1, hsc.2, hnc⟩

theorem claim6_witness :
    ∃ t ∈ (locateCounted "q\nzz\nq".toList "q".toList none (some (3, 3))).1,
      3 ≤ t.startLine ∧ t.endLine ≤ 3
        ∧ "q\nzz\nR".toList = applyCand "q\nzz\nq".toList "R".toList t :=
  (claim6_hard_scope_excludes_outside "q\nzz\nq".toList "q".toList "R".toList none 3 3).2
    "q\nzz\nR".toList (by decide)

/-! ### Claims C8 and C10 — the shape of the ambiguity diagnostic -/

theorem mem_exactCandidates_of (C S : List Char) (scope : Option (Nat × Nat)) (p : Nat)
    (hS : S ≠ []) (hp : occursAt C S p = true)
    (hsc : candInScope scope (mkExactCand C S p) = true) :
    mkExactCand C S p ∈ exactCandidates C S scope := by
  unfold exactCandidates
  rw [List.mem_filter]
  exact ⟨List.mem_map_of_mem _ ((mem_findOccurrences C S p hS).mpr hp), hsc⟩

theorem mkExactCand_inj (C S : List Char) (p q : Nat)
    (h : mkExactCand C S p = mkExactCand C S q) : p = q :=
  congrArg MatchCandidate.startPos h

theorem tool_multiple (path : String) (C S R : List Char) (scope : Option (Nat × Nat))
    (h2 : 2 ≤ (exactCandidates C S scope).length) :
    searchAndReplaceToolOutcome path C S R scope
      = ToolOutcome.multipleMatches
          (ambiguousMessage (exactCandidates C S scope).length
            (((exactCandidates C S scope).take 10).map (fun cd => cd.startLine))
            scope.isSome) := by
  unfold searchAndReplaceToolOutcome
  rcases hl : exactCandidates C S scope with _ | ⟨t, _ | ⟨u, rest⟩⟩
  · rw [hl] at h2
    simp at h2
  · rw [hl] at h2
    simp at h2
  · rfl

theorem ambiguousMessage_has_range_phrase (n : Nat) (locs : List Nat) :
    ∃ l r, (ambiguousMessage n locs true).data
      = l ++ ("in the specified line range").data ++ r := by
  refine ⟨("Search query matches " ++ toString n ++ " locations ").data,
    ((". This could lead to unintended replacements. Matches found at lines "
        ++ String.intercalate ", " (locs.map toString)
        ++ (if 10 < n then "\n" ++ ("... and " ++ toString (n - 10) ++ " more matches")
            else ""))).data, ?_⟩
  simp [ambiguousMessage, string_data_append, List.append_assoc]

theorem ambiguousMessage_has_file_phrase (n : Nat) (locs : List Nat) :
    ∃ l r, (ambiguousMessage n locs false).data
      = l ++ ("in the file").data ++ r := by
  refine ⟨("Search query matches " ++ toString n ++ " locations ").data,
    ((". This could lead to unintended replacements. Matches found at lines "
        ++ String.intercalate ", " (locs.map toString)
        ++ (if 10 < n then "\n" ++ ("... and " ++ toString (n - 10) ++ " more matches")
            else ""))).data, ?_⟩
  simp [ambiguousMessage, string_data_append, List.append_assoc]

theorem ambiguousMessage_has_more_line (n : Nat) (locs : List Nat) (b : Bool)
    (hn : 10 < n) :
    ∃ l r, (ambiguousMessage n locs b).data
      = l ++ ("... and " ++ toString (n - 10) ++ " more matches").data ++ r := by
  refine ⟨("Search query matches " ++ toString n ++ " locations "
      ++ (if b then "in the specified line range" else "in the file")
      ++ ". This could lead to unintended replacements. Matches found at lines "
      ++ String.intercalate ", " (locs.map toString) ++ "\n").data, [], ?_⟩
  rw [ambiguousMessage, if_pos hn]
  simp [string_data_append, List.append_assoc]

/-- C8: the `Ambiguous` failure message distinguishes whole-file ambiguity
from line-range ambiguity: when the same two-or-more-match search runs
with no line range the tool's message carries the phrase "in the file",
and when it runs with a caller-supplied `[lo, hi]` range containing at
least two matches the message carries the phrase
"in the specified line range". -/
theorem claim8_message_distinguishes_scope (path : String) (C S R : List Char)
    (p q lo hi : Nat) (hS : S ≠ [])
    (hp : occursAt C S p = true) (hq : occursAt C S q = true)
    (hdisj : p + S.length ≤ q)
    (hplo : lo ≤ lineOfPos C p) (hphi : lineOfPos C (p + S.length - 1) ≤ hi)
    (hqlo : lo ≤ lineOfPos C q) (hqhi : lineOfPos C (q + S.length - 1) ≤ hi) :
    (∃ m, searchAndReplaceToolOutcome path C S R none = ToolOutcome.multipleMatches m
       ∧ ∃ l r, m.data = l ++ ("in the file").data ++ r)
    ∧ (∃ m, searchAndReplaceToolOutcome path C S R (some (lo, hi))
            = ToolOutcome.multipleMatches m
       ∧ ∃ l r, m.data = l ++ ("in the specified line range").data ++ r) := by
  have hS1 : 1 ≤ S.length := List.length_pos.mpr hS
  have hpq : p ≠ q := by omega
  have hcne : mkExactCand C S p ≠ mkExactCand C S q :=
    fun h => hpq (mkExactCand_inj C S p q h)
  constructor
  · have hpm := mem_exactCandidates_of C S none p hS hp rfl
    have hqm := mem_exactCandidates_of C S none q hS hq rfl
    have h2 := two_mem_le_length _ _ _ hpm hqm hcne
    exact ⟨_, tool_multiple path C S R none h2,
      ambiguousMessage_has_file_phrase _ _⟩
  · have hscp : candInScope (some (lo, hi)) (mkExactCand C S p) = true := by
      unfold candInScope
      rw [Bool.and_eq_true, decide_eq_true_eq, decide_eq_true_eq]
      exact ⟨hplo, hphi⟩
    have hscq : candInScope (some (lo, hi)) (mkExactCand C S q) = true := by
      unfold candInScope
      rw [Bool.and_eq_true, decide_eq_true_eq, decide_eq_true_eq]
      exact ⟨hqlo, hqhi⟩
    have hpm := mem_exactCandidates_of C S (some (lo, hi)) p hS hp hscp
    have hqm := mem_exactCandidates_of C S (some (lo, hi)) q hS hq hscq
    have h2 := two_mem_le_length _ _ _ hpm hqm hcne
    exact ⟨_, tool_multiple path C S R (some (lo, hi)) h2,
      ambiguousMessage_has_range_phrase _ _⟩

def c8content : List Char := "q\nzz\nq\nq".toList

def c8search : List Char := "q".toList

theorem claim8_witness :
    (∃ m, searchAndReplaceToolOutcome "f.ts" c8content c8search "R".toList none
        = ToolOutcome.multipleMatches m
      ∧ ∃ l r, m.data = l ++ ("in the file").data ++ r)
    ∧ (∃ m, searchAndReplaceToolOutcome "f.ts" c8content c8search "R".toList (some (3, 4))
          = ToolOutcome.multipleMatches m
      ∧ ∃ l r, m.data = l ++ ("in the specified line range").data ++ r) :=
  claim8_message_distinguishes_scope "f.ts" c8content c8search "R".toList 5 7 3 4
    (by decide) (by decide) (by decide) (by decide) (by decide) (by decide) (by decide)
    (by decide)

/-- C10: when a search matches more than 10 locations and no line range is
supplied, the ambiguity message lists only the first 10 match locations
(the displayed sample list is exactly the first 10 occurrences and has
length 10) and then carries a line "... and K more matches" where `K` is
the total occurrence count minus 10. -/
theorem claim10_displayed_matches_capped (path : String) (C S R : List Char)
    (_hS : S ≠ []) (h11 : 11 ≤ (findOccurrences C S).length) :
    ∃ m, searchAndReplaceToolOutcome path C S R none = ToolOutcome.multipleMatches m
      ∧ m = ambiguousMessage (findOccurrences C S).length
            (((findOccurrences C S).take 10).map (lineOfPos C)) false
      ∧ (((findOccurrences C S).take 10).map (lineOfPos C)).length = 10
      ∧ ∃ l r, m.data
          = l ++ ("... and " ++ toString ((findOccurrences C S).length - 10)
                ++ " more matches").data ++ r := by
  obtain ⟨hlen, hsamp⟩ := exactCandidates_none_stats C S
  have h2 : 2 ≤ (exactCandidates C S none).length := by omega
  refine ⟨_, tool_multiple path C S R none h2, ?_, ?_, ?_⟩
  · rw [hlen, hsamp]
    rfl
  · rw [List.length_map, List.length_take]
    omega
  · rw [hlen, hsamp]
    exact ambiguousMessage_has_more_line _ _ false (by omega)

def c10content : List Char := "q\nq\nq\nq\nq\nq\nq\nq\nq\nq\nq\nq\nq\nq\nq".toList

theorem claim10_witness :
    11 ≤ (findOccurrences c10content "q".toList).length
    ∧ ∃ m, searchAndReplaceToolOutcome "f.ts" c10content "q".toList "R".toList none
        = ToolOutcome.multipleMatches m
      ∧ m = ambiguousMessage (findOccurrences c10content "q".toList).length
            (((findOccurrences c10content "q".toList).take 10).map (lineOfPos c10content))
            false
      ∧ (((findOccurrences c10content "q".toList).take 10).map
            (lineOfPos c10content)).length = 10
      ∧ ∃ l r, m.data
          = l ++ ("... and " ++ toString ((findOccurrences c10content "q".toList).length - 10)
                ++ " more matches").data ++ r :=
  ⟨by decide,
   claim10_displayed_matches_capped "f.ts" c10content "q".toList "R".toList (by decide)
     (by decide)⟩

end VeraLevel
